import Mathlib

/-!
Verification of the pulse-control compilation layer.

The development embeds the two source modules:

* `PulseControlInterface.create_waveform_struct` and
  `PulseControlInterface.create_pulse_group`, the pulse-group compiler that
  converts an instruction block into the pulse-control payload while
  deduplicating waveforms and run-length encoding immediate repeats;
* `ParameterNotInPulseTemplateException.__str__` from the pulse-template
  module.

Machine reals of the source are embedded as rationals, Python lists as Lean
lists, and the external registration callback as a pure function together with
an explicit log of the waveforms it was invoked on.
-/

set_option autoImplicit false

namespace PulseControl

/-- Modelled from the spec: the Instructions module is not among the provided
sources.  An Instruction is a tagged variant; the compiler accepts only the
execute-waveform variant (`EXECInstruction` carrying a waveform), while a
branch variant exists conceptually and is rejected at compile time.  `W` is
the waveform value type; waveform value equality is decidable, which mirrors
the hash/eq-based dictionary keying of the source. -/
inductive Instruction (W : Type) where
  | exec (waveform : W)
  | branch
  deriving DecidableEq

/-- Truth value of the source's `isinstance(x, EXECInstruction)` check. -/
def Instruction.isExec {W : Type} : Instruction W → Bool
  | .exec _ => true
  | .branch => false

/-- Waveform list extracted by the source comprehension
`[instruction.waveform for instruction in block.instructions]`; the
comprehension runs only after the compiler has validated that every
instruction is an `EXECInstruction`, so dropping the branch variant agrees
with the source on every reachable input. -/
def blockWaveforms {W : Type} : List (Instruction W) → List W
  | [] => []
  | .exec w :: rest => w :: blockWaveforms rest
  | .branch :: rest => blockWaveforms rest

/-- Pulse-group dictionary built by `create_pulse_group`. -/
structure PulseGroup where
  pulses : List Nat
  nrep : List Nat
  name : String
  chan : Nat
  ctrl : String
  deriving DecidableEq

/-- Result of a call to `create_pulse_group`: a raised exception, the bare
string `""` that the source returns for a block without waveforms, or a
pulse-group dictionary. -/
inductive PulseGroupResult where
  | error (msg : String)
  | sentinel (value : String)
  | group (g : PulseGroup)
  deriving DecidableEq

/-- Message of the exception raised on branching instructions. -/
def branchingErrorMessage : String :=
  "Hardware based branching is not supported by pulse-control."

/-- Lookup in the `registered_waveforms` dictionary, keyed by waveform value
equality like the Python dict. -/
def dictLookup {W : Type} [DecidableEq W] (w : W) : List (W × Nat) → Option Nat
  | [] => none
  | (k, v) :: rest => if k = w then some v else dictLookup w rest

/-- Mutable state of the registration loop of `create_pulse_group`:
the `pulses` and `nrep` lists of the pulse-group dictionary, the
`registered_waveforms` dictionary, and the log of waveforms for which the
registration callback has been invoked. -/
structure CompileState (W : Type) where
  pulses : List Nat
  nrep : List Nat
  registered : List (W × Nat)
  invoked : List W

/-- State at the top of the loop: empty `pulses`/`nrep`, an empty
registration dictionary, and no callback invocations yet. -/
def emptyState (W : Type) : CompileState W :=
  { pulses := [], nrep := [], registered := [], invoked := [] }

/-- First half of the loop body: if the waveform is not yet a key of
`registered_waveforms`, build its struct, invoke the registration callback
and store the returned id under the waveform. -/
def registerStep {W : Type} [DecidableEq W] (register : W → Nat)
    (s : CompileState W) (w : W) : CompileState W :=
  match dictLookup w s.registered with
  | some _ => s
  | none =>
      { s with
        registered := s.registered ++ [(w, register w)]
        invoked := s.invoked ++ [w] }

/-- Second half of the loop body: if `pulses` is non-empty and its last entry
equals the current waveform's id, increment the last repeat count, else
append the id with repeat count 1. -/
def encodeStep {W : Type} (s : CompileState W) (wid : Nat) : CompileState W :=
  if s.pulses.getLast? = some wid then
    { s with nrep := s.nrep.dropLast ++ [s.nrep.getLast?.getD 0 + 1] }
  else
    { s with pulses := s.pulses ++ [wid], nrep := s.nrep ++ [1] }

/-- One iteration of the `for waveform in waveforms` loop of
`create_pulse_group`. -/
def processWaveform {W : Type} [DecidableEq W] (register : W → Nat)
    (s : CompileState W) (w : W) : CompileState W :=
  let s1 := registerStep register s w
  encodeStep s1 ((dictLookup w s1.registered).getD 0)

/-- Invariant tying the invocation log to the registration dictionary: a
waveform has been passed to the registration callback exactly once if it is a
key of `registered_waveforms`, and never otherwise. -/
def RegistryCountInv {W : Type} [DecidableEq W] (s : CompileState W) : Prop :=
  ∀ w : W, s.invoked.count w = if (dictLookup w s.registered).isSome then 1 else 0

/-- Embedding of `PulseControlInterface.create_pulse_group`.  `register`
abstracts `self.__register_pulse_callback` composed with the waveform-struct
construction: it assigns a hardware id to a waveform value.  The second
component of the result is the sequence of waveforms for which the
registration callback was invoked, in order, modelling its side effect. -/
def create_pulse_group {W : Type} [DecidableEq W] (register : W → Nat)
    (block : List (Instruction W)) (name : String) :
    PulseGroupResult × List W :=
  if block.all Instruction.isExec then
    let waveforms := blockWaveforms block
    if waveforms = [] then
      (PulseGroupResult.sentinel "", [])
    else
      let final := waveforms.foldl (processWaveform register) (emptyState W)
      (PulseGroupResult.group
        { pulses := final.pulses
          nrep := final.nrep
          name := name
          chan := 1
          ctrl := "notrig" },
       final.invoked)
  else
    (PulseGroupResult.error branchingErrorMessage, [])

/-- Waveform as consumed by `create_waveform_struct`: a duration and a pure
sampling function applied pointwise to the sample grid. -/
structure Waveform where
  duration : ℚ
  sample : ℚ → ℚ

/-- Model of `numpy.linspace start stop num` over the rationals: `num` evenly
spaced points from `start` to `stop`, both endpoints included when
`num ≥ 2`; a single point is just `start`, and zero points give the empty
list. -/
def linspace (start stop : ℚ) (num : Nat) : List ℚ :=
  if num = 1 then [start]
  else (List.range num).map fun i : ℕ =>
    start + (stop - start) * (i : ℚ) / ((num : ℚ) - 1)

/-- Sample count of the source:
`floor(waveform.duration * time_scaling * sample_rate) + 1` (a nonnegative
quantity whenever the time product is nonnegative; `toNat` bridges to the
length argument of `linspace`). -/
def sampleCount (sample_rate time_scaling : ℚ) (w : Waveform) : Nat :=
  (Int.floor (w.duration * time_scaling * sample_rate) + 1).toNat

/-- Sample grid of the source:
`numpy.linspace(0, waveform.duration, sample_count)`. -/
def sampleTimes (sample_rate time_scaling : ℚ) (w : Waveform) : List ℚ :=
  linspace 0 w.duration (sampleCount sample_rate time_scaling w)

/-- Data part of a waveform struct. -/
structure WaveformData where
  wf : List ℚ
  marker : List ℚ
  clk : ℚ
  deriving DecidableEq

/-- Waveform struct dictionary sent to the registration callback. -/
structure WaveformStruct where
  name : String
  data : WaveformData
  deriving DecidableEq

/-- Embedding of `PulseControlInterface.create_waveform_struct`: sample the
waveform on the linspace grid, zero-fill the marker channel
(`numpy.zeros_like`), and record the sample rate as `clk`. -/
def create_waveform_struct (sample_rate time_scaling : ℚ) (waveform : Waveform)
    (name : String) : WaveformStruct :=
  let sampled := (sampleTimes sample_rate time_scaling waveform).map waveform.sample
  { name := name
    data :=
      { wf := sampled
        marker := sampled.map fun _ => 0
        clk := sample_rate } }

/-- Sampling property of `create_waveform_struct` as the amended claim
states it: the struct's `wf` field is the waveform sampled on the grid, the
grid has exactly `floor(duration * time_scaling * sample_rate) + 1` points,
and when that count is at least 2 the points are evenly spaced over the
closed interval `[0, duration]` with both endpoints included; when the count
is 1 the grid degenerates to the single point 0 (the right endpoint is not
sampled). -/
def sampledEvenly (sample_rate time_scaling : ℚ) (w : Waveform) (name : String) :
    Prop :=
  (create_waveform_struct sample_rate time_scaling w name).data.wf
      = (sampleTimes sample_rate time_scaling w).map w.sample ∧
  (sampleTimes sample_rate time_scaling w).length
      = sampleCount sample_rate time_scaling w ∧
  (sampleCount sample_rate time_scaling w : ℤ)
      = Int.floor (w.duration * time_scaling * sample_rate) + 1 ∧
  (2 ≤ sampleCount sample_rate time_scaling w →
    ∀ i, i < sampleCount sample_rate time_scaling w →
      (sampleTimes sample_rate time_scaling w).getD i 0
        = w.duration * i / ((sampleCount sample_rate time_scaling w : ℚ) - 1)) ∧
  (2 ≤ sampleCount sample_rate time_scaling w →
    (sampleTimes sample_rate time_scaling w).head? = some 0 ∧
    (sampleTimes sample_rate time_scaling w).getLast? = some w.duration) ∧
  (sampleCount sample_rate time_scaling w = 1 →
    sampleTimes sample_rate time_scaling w = [0])

/-- Piece of a Python format string: a literal chunk or a positional
replacement field `\x7bi\x7d`. -/
inductive FormatItem where
  | lit (s : String)
  | arg (i : Nat)

/-- Model of Python `str.format` with positional arguments: each replacement
field looks up its index in the argument tuple and an out-of-range index
raises `IndexError`. -/
def pyFormat (items : List FormatItem) (args : List String) : Except String String :=
  items.foldl
    (fun acc item =>
      match acc with
      | Except.error e => Except.error e
      | Except.ok s =>
          match item with
          | FormatItem.lit t => Except.ok (s ++ t)
          | FormatItem.arg i =>
              match args.get? i with
              | some a => Except.ok (s ++ a)
              | none => Except.error "IndexError: Replacement index out of range")
    (Except.ok "")

/-- Format template of the source line
`"Parameter \x7b1\x7d not found".format(self.name)`: a literal, the positional
field with index 1, and a literal. -/
def parameterNotFoundTemplate : List FormatItem :=
  [FormatItem.lit "Parameter ", FormatItem.arg 1, FormatItem.lit " not found"]

/-- Embedding of `ParameterNotInPulseTemplateException.__str__`: format the
template above with the single argument `self.name`. -/
def parameterNotInPulseTemplateExceptionStr (name : String) : Except String String :=
  pyFormat parameterNotFoundTemplate [name]

/-! ### Helper lemmas about the registration dictionary and the loop body -/

theorem dictLookup_nil {W : Type} [DecidableEq W] (w : W) :
    dictLookup w ([] : List (W × Nat)) = none := rfl

theorem dictLookup_cons {W : Type} [DecidableEq W] (w k : W) (v : Nat)
    (rest : List (W × Nat)) :
    dictLookup w ((k, v) :: rest) = if k = w then some v else dictLookup w rest := rfl

theorem dictLookup_append_some {W : Type} [DecidableEq W] (w : W)
    (l1 l2 : List (W × Nat)) (v : Nat) (h : dictLookup w l1 = some v) :
    dictLookup w (l1 ++ l2) = some v := by
  induction l1 with
  | nil => exact absurd h (by simp [dictLookup_nil])
  | cons p t ih =>
      obtain ⟨k, u⟩ := p
      rw [List.cons_append, dictLookup_cons]
      rw [dictLookup_cons] at h
      by_cases hk : k = w
      · rw [if_pos hk] at h ⊢; exact h
      · rw [if_neg hk] at h ⊢; exact ih h

theorem dictLookup_append_none {W : Type} [DecidableEq W] (w : W)
    (l1 l2 : List (W × Nat)) (h : dictLookup w l1 = none) :
    dictLookup w (l1 ++ l2) = dictLookup w l2 := by
  induction l1 with
  | nil => rfl
  | cons p t ih =>
      obtain ⟨k, u⟩ := p
      rw [List.cons_append, dictLookup_cons]
      rw [dictLookup_cons] at h
      by_cases hk : k = w
      · rw [if_pos hk] at h; exact absurd h (by simp)
      · rw [if_neg hk] at h ⊢; exact ih h

theorem registerStep_pulses {W : Type} [DecidableEq W] (register : W → Nat)
    (s : CompileState W) (w : W) :
    (registerStep register s w).pulses = s.pulses := by
  unfold registerStep
  cases dictLookup w s.registered <;> rfl

theorem registerStep_nrep {W : Type} [DecidableEq W] (register : W → Nat)
    (s : CompileState W) (w : W) :
    (registerStep register s w).nrep = s.nrep := by
  unfold registerStep
  cases dictLookup w s.registered <;> rfl

theorem registerStep_of_lookup_some {W : Type} [DecidableEq W] (register : W → Nat)
    (s : CompileState W) (w : W) (v : Nat) (h : dictLookup w s.registered = some v) :
    registerStep register s w = s := by
  unfold registerStep
  rw [h]

theorem registerStep_of_lookup_none {W : Type} [DecidableEq W] (register : W → Nat)
    (s : CompileState W) (w : W) (h : dictLookup w s.registered = none) :
    registerStep register s w
      = { s with
          registered := s.registered ++ [(w, register w)]
          invoked := s.invoked ++ [w] } := by
  unfold registerStep
  rw [h]

theorem encodeStep_registered {W : Type} (s : CompileState W) (wid : Nat) :
    (encodeStep s wid).registered = s.registered := by
  unfold encodeStep
  split <;> rfl

theorem encodeStep_invoked {W : Type} (s : CompileState W) (wid : Nat) :
    (encodeStep s wid).invoked = s.invoked := by
  unfold encodeStep
  split <;> rfl

theorem blockWaveforms_length_of_all_exec {W : Type} (block : List (Instruction W))
    (h : block.all Instruction.isExec = true) :
    (blockWaveforms block).length = block.length := by
  induction block with
  | nil => rfl
  | cons i t ih =>
      rw [List.all_cons, Bool.and_eq_true] at h
      cases i with
      | exec w => simp [blockWaveforms, ih h.2]
      | branch => exact absurd h.1 (by simp [Instruction.isExec])

/-- Unfolding of `create_pulse_group` on a validated block with at least one
waveform. -/
theorem create_pulse_group_of_all_exec {W : Type} [DecidableEq W]
    (register : W → Nat) (block : List (Instruction W)) (name : String)
    (h1 : block.all Instruction.isExec = true)
    (h2 : blockWaveforms block ≠ []) :
    create_pulse_group register block name
      = (PulseGroupResult.group
          { pulses :=
              ((blockWaveforms block).foldl (processWaveform register)
                (emptyState W)).pulses
            nrep :=
              ((blockWaveforms block).foldl (processWaveform register)
                (emptyState W)).nrep
            name := name
            chan := 1
            ctrl := "notrig" },
         ((blockWaveforms block).foldl (processWaveform register)
            (emptyState W)).invoked) := by
  simp only [create_pulse_group]
  rw [if_pos h1, if_neg h2]

/-- Unfolding of `create_pulse_group` on a validated block without
waveforms. -/
theorem create_pulse_group_of_no_waveforms {W : Type} [DecidableEq W]
    (register : W → Nat) (block : List (Instruction W)) (name : String)
    (h1 : block.all Instruction.isExec = true)
    (h2 : blockWaveforms block = []) :
    create_pulse_group register block name = (PulseGroupResult.sentinel "", []) := by
  simp only [create_pulse_group]
  rw [if_pos h1, if_pos h2]

/-- Unfolding of `create_pulse_group` on a block failing validation. -/
theorem create_pulse_group_of_not_all_exec {W : Type} [DecidableEq W]
    (register : W → Nat) (block : List (Instruction W)) (name : String)
    (h1 : ¬ block.all Instruction.isExec = true) :
    create_pulse_group register block name
      = (PulseGroupResult.error branchingErrorMessage, []) := by
  simp only [create_pulse_group]
  rw [if_neg h1]

theorem map_const_zero_eq_replicate (l : List ℚ) :
    (l.map fun _ => (0 : ℚ)) = List.replicate l.length 0 := by
  induction l with
  | nil => rfl
  | cons a t ih => simp [ih, List.replicate_succ]

/-! ### Claim theorems (first part) -/

/-- C1: on the empty instruction block the source does not return a
well-formed empty pulse group; it returns the bare string `""` — the untyped
sentinel the claim rules out.  This exhibits the divergence between the code
and the claim (the claim matches the documented intent; the `return ""` is
the slip flagged in the design notes). -/
theorem create_pulse_group_empty_block_returns_sentinel
    (register : Nat → Nat) (name : String) :
    create_pulse_group register ([] : List (Instruction Nat)) name
        = (PulseGroupResult.sentinel "", []) ∧
    ∀ g : PulseGroup,
      (create_pulse_group register ([] : List (Instruction Nat)) name).1
        ≠ PulseGroupResult.group g := by
  refine ⟨rfl, ?_⟩
  intro g h
  exact PulseGroupResult.noConfusion h

/-- C2 counterexample: the `ctrl` field of a compiled pulse group is the
string "notrig", not the string "no external trigger", refuting the claim at
the one-instruction block. -/
theorem create_pulse_group_ctrl_notrig_counterexample :
    (create_pulse_group (fun _ : Nat => 0) [Instruction.exec 0] "g").1
        = PulseGroupResult.group
            { pulses := [0], nrep := [1], name := "g", chan := 1, ctrl := "notrig" } ∧
    "notrig" ≠ "no external trigger" := by
  exact ⟨rfl, by decide⟩

/-- C2 (amended): for every non-empty all-execute-waveform block and every
name, the returned pulse group has `chan = 1` and `ctrl = "notrig"` (the
pulse-control encoding of the no-external-trigger mode). -/
theorem create_pulse_group_chan_ctrl_fixed {W : Type} [DecidableEq W]
    (register : W → Nat) (block : List (Instruction W)) (name : String)
    (h1 : block.all Instruction.isExec = true) (h2 : block ≠ []) :
    ∃ g : PulseGroup,
      (create_pulse_group register block name).1 = PulseGroupResult.group g ∧
      g.chan = 1 ∧ g.ctrl = "notrig" := by
  have hw : blockWaveforms block ≠ [] := by
    intro h0
    have hlen := blockWaveforms_length_of_all_exec block h1
    rw [h0] at hlen
    exact h2 (List.length_eq_zero.mp hlen.symm)
  rw [create_pulse_group_of_all_exec register block name h1 hw]
  exact ⟨_, rfl, rfl, rfl⟩

/-- Closed witness for the amended C2 theorem at a concrete one-instruction
block. -/
theorem create_pulse_group_chan_ctrl_fixed_witness :
    ∃ g : PulseGroup,
      (create_pulse_group (fun _ : Nat => 7) [Instruction.exec 4] "w2").1
          = PulseGroupResult.group g ∧
      g.chan = 1 ∧ g.ctrl = "notrig" :=
  create_pulse_group_chan_ctrl_fixed (fun _ : Nat => 7) [Instruction.exec 4] "w2"
    (by decide) (by decide)

/-- C3: a block containing any non-execute-waveform instruction, wherever it
occurs, makes `create_pulse_group` raise the branching-not-supported
error. -/
theorem create_pulse_group_branching_error {W : Type} [DecidableEq W]
    (register : W → Nat) (block : List (Instruction W)) (name : String)
    (h : ∃ i, i ∈ block ∧ Instruction.isExec i = false) :
    (create_pulse_group register block name).1
      = PulseGroupResult.error branchingErrorMessage := by
  obtain ⟨i, hmem, hexec⟩ := h
  have hall : ¬ block.all Instruction.isExec = true := by
    rw [List.all_eq_true]
    intro hforall
    have hi := hforall i hmem
    rw [hexec] at hi
    exact Bool.false_ne_true hi
  rw [create_pulse_group_of_not_all_exec register block name hall]

/-- Closed witness for the C3 theorem: a branch instruction in second
position triggers the error. -/
theorem create_pulse_group_branching_error_witness :
    (∃ i, i ∈ [Instruction.exec 0, Instruction.branch] ∧ Instruction.isExec i = false) ∧
    (create_pulse_group (fun _ : Nat => 0)
        [Instruction.exec 0, Instruction.branch] "w3").1
      = PulseGroupResult.error branchingErrorMessage :=
  ⟨⟨Instruction.branch, by decide, rfl⟩,
   create_pulse_group_branching_error (fun _ : Nat => 0)
     [Instruction.exec 0, Instruction.branch] "w3"
     ⟨Instruction.branch, by decide, rfl⟩⟩

/-- C9: `create_waveform_struct` is deterministic (it is a pure function of
its arguments, so two calls agree), carries the supplied name, fills the
marker channel with zeroes of the same length as the sampled waveform, and
stores the configured sample rate as `clk`. -/
theorem create_waveform_struct_idempotent (sample_rate time_scaling : ℚ)
    (w : Waveform) (name : String) :
    create_waveform_struct sample_rate time_scaling w name
        = create_waveform_struct sample_rate time_scaling w name ∧
    (create_waveform_struct sample_rate time_scaling w name).name = name ∧
    (create_waveform_struct sample_rate time_scaling w name).data.marker
        = List.replicate
            (create_waveform_struct sample_rate time_scaling w name).data.wf.length
            0 ∧
    (create_waveform_struct sample_rate time_scaling w name).data.clk
        = sample_rate := by
  refine ⟨rfl, rfl, ?_, rfl⟩
  exact map_const_zero_eq_replicate _

/-! ### Run-length-encoding and deduplication invariants of the loop -/

theorem processWaveform_def {W : Type} [DecidableEq W] (register : W → Nat)
    (s : CompileState W) (w : W) :
    processWaveform register s w
      = encodeStep (registerStep register s w)
          ((dictLookup w (registerStep register s w).registered).getD 0) := rfl

theorem sum_dropLast_append_getLast_succ (l : List Nat) (h : l ≠ []) :
    (l.dropLast ++ [l.getLast?.getD 0 + 1]).sum = l.sum + 1 := by
  induction l with
  | nil => exact absurd rfl h
  | cons a t ih =>
      cases t with
      | nil => simp
      | cons b t2 =>
          have h2 := ih (List.cons_ne_nil b t2)
          rw [List.getLast?_cons_cons,
              show (a :: b :: t2).dropLast = a :: (b :: t2).dropLast by simp,
              List.cons_append, List.sum_cons, List.sum_cons, h2]
          omega

theorem encodeStep_length {W : Type} (s : CompileState W) (wid : Nat)
    (h : s.pulses.length = s.nrep.length) :
    (encodeStep s wid).pulses.length = (encodeStep s wid).nrep.length := by
  unfold encodeStep
  split
  · next heq =>
      have hp : s.pulses ≠ [] := by
        intro h0; rw [h0] at heq; simp at heq
      have hlen : 0 < s.nrep.length := by
        rw [← h]; exact List.length_pos.mpr hp
      simp only [List.length_append, List.length_dropLast, List.length_cons,
        List.length_nil]
      omega
  · simp [h]

theorem encodeStep_sum {W : Type} (s : CompileState W) (wid : Nat)
    (h : s.pulses.length = s.nrep.length) :
    (encodeStep s wid).nrep.sum = s.nrep.sum + 1 := by
  unfold encodeStep
  split
  · next heq =>
      have hp : s.pulses ≠ [] := by
        intro h0; rw [h0] at heq; simp at heq
      have hn : s.nrep ≠ [] := by
        intro h0
        rw [h0] at h
        exact hp (List.length_eq_zero.mp (by simpa using h))
      exact sum_dropLast_append_getLast_succ s.nrep hn
  · simp

theorem encodeStep_chain {W : Type} (s : CompileState W) (wid : Nat)
    (h : List.Chain' (fun a b : Nat => a ≠ b) s.pulses) :
    List.Chain' (fun a b : Nat => a ≠ b) (encodeStep s wid).pulses := by
  unfold encodeStep
  split
  · exact h
  · next hne =>
      refine List.Chain'.append h (List.chain'_singleton wid) ?_
      intro x hx y hy
      rw [Option.mem_def] at hx
      simp only [List.head?_cons, Option.mem_def, Option.some.injEq] at hy
      subst hy
      intro hxy
      subst hxy
      exact hne hx

theorem processWaveform_length {W : Type} [DecidableEq W] (register : W → Nat)
    (s : CompileState W) (w : W) (h : s.pulses.length = s.nrep.length) :
    (processWaveform register s w).pulses.length
      = (processWaveform register s w).nrep.length := by
  rw [processWaveform_def]
  exact encodeStep_length _ _ (by rw [registerStep_pulses, registerStep_nrep]; exact h)

theorem processWaveform_sum {W : Type} [DecidableEq W] (register : W → Nat)
    (s : CompileState W) (w : W) (h : s.pulses.length = s.nrep.length) :
    (processWaveform register s w).nrep.sum = s.nrep.sum + 1 := by
  rw [processWaveform_def,
      encodeStep_sum _ _ (by rw [registerStep_pulses, registerStep_nrep]; exact h),
      registerStep_nrep]

theorem processWaveform_chain {W : Type} [DecidableEq W] (register : W → Nat)
    (s : CompileState W) (w : W)
    (h : List.Chain' (fun a b : Nat => a ≠ b) s.pulses) :
    List.Chain' (fun a b : Nat => a ≠ b) (processWaveform register s w).pulses := by
  rw [processWaveform_def]
  exact encodeStep_chain _ _ (by rw [registerStep_pulses]; exact h)

theorem processWaveform_reg_some {W : Type} [DecidableEq W] (register : W → Nat)
    (s : CompileState W) (w : W) (v : Nat) (h : dictLookup w s.registered = some v) :
    (processWaveform register s w).registered = s.registered ∧
    (processWaveform register s w).invoked = s.invoked := by
  rw [processWaveform_def, registerStep_of_lookup_some register s w v h]
  exact ⟨encodeStep_registered _ _, encodeStep_invoked _ _⟩

theorem processWaveform_reg_none {W : Type} [DecidableEq W] (register : W → Nat)
    (s : CompileState W) (w : W) (h : dictLookup w s.registered = none) :
    (processWaveform register s w).registered = s.registered ++ [(w, register w)] ∧
    (processWaveform register s w).invoked = s.invoked ++ [w] := by
  rw [processWaveform_def, registerStep_of_lookup_none register s w h]
  exact ⟨encodeStep_registered _ _, encodeStep_invoked _ _⟩

theorem processWaveform_lookup_isSome {W : Type} [DecidableEq W] (register : W → Nat)
    (s : CompileState W) (v w : W) :
    (dictLookup w (processWaveform register s v).registered).isSome = true
      ↔ (dictLookup w s.registered).isSome = true ∨ w = v := by
  cases h : dictLookup v s.registered with
  | some u =>
      rw [(processWaveform_reg_some register s v u h).1]
      constructor
      · exact Or.inl
      · rintro (hs | rfl)
        · exact hs
        · rw [h]; rfl
  | none =>
      rw [(processWaveform_reg_none register s v h).1]
      cases h2 : dictLookup w s.registered with
      | some u2 =>
          rw [dictLookup_append_some w s.registered _ u2 h2]
          simp
      | none =>
          rw [dictLookup_append_none w s.registered _ h2, dictLookup_cons]
          by_cases hvw : v = w
          · rw [if_pos hvw]
            constructor
            · intro _; exact Or.inr hvw.symm
            · intro _; rfl
          · rw [if_neg hvw, dictLookup_nil]
            constructor
            · intro hs; exact absurd hs (by simp)
            · rintro (hs | rfl)
              · exact absurd hs (by simp)
              · exact absurd rfl hvw

theorem processWaveform_countInv {W : Type} [DecidableEq W] (register : W → Nat)
    (s : CompileState W) (v : W) (H : RegistryCountInv s) :
    RegistryCountInv (processWaveform register s v) := by
  intro w
  cases h : dictLookup v s.registered with
  | some u =>
      obtain ⟨hr, hi⟩ := processWaveform_reg_some register s v u h
      rw [hr, hi]
      exact H w
  | none =>
      obtain ⟨hr, hi⟩ := processWaveform_reg_none register s v h
      rw [hr, hi, List.count_append]
      by_cases hwv : w = v
      · subst hwv
        have h0 : s.invoked.count w = 0 := by rw [H w, h]; rfl
        rw [h0, dictLookup_append_none w s.registered _ h, dictLookup_cons,
            if_pos rfl]
        simp
      · have hl : dictLookup w (s.registered ++ [(v, register v)])
            = dictLookup w s.registered := by
          cases h2 : dictLookup w s.registered with
          | some u2 => exact dictLookup_append_some w s.registered _ u2 h2
          | none =>
              rw [dictLookup_append_none w s.registered _ h2, dictLookup_cons,
                  if_neg (fun he => hwv he.symm), dictLookup_nil]
        rw [hl]
        have hc : List.count w [v] = 0 := by
          simp [List.count_cons, hwv]
        rw [hc]
        simpa using H w

theorem foldl_length_sum {W : Type} [DecidableEq W] (register : W → Nat)
    (ws : List W) :
    ∀ s : CompileState W, s.pulses.length = s.nrep.length →
      ((ws.foldl (processWaveform register) s).pulses.length
          = (ws.foldl (processWaveform register) s).nrep.length) ∧
      (ws.foldl (processWaveform register) s).nrep.sum = s.nrep.sum + ws.length := by
  induction ws with
  | nil => intro s h; exact ⟨h, by simp⟩
  | cons v t ih =>
      intro s h
      rw [List.foldl_cons]
      obtain ⟨h1, h2⟩ := ih (processWaveform register s v)
        (processWaveform_length register s v h)
      refine ⟨h1, ?_⟩
      rw [h2, processWaveform_sum register s v h, List.length_cons]
      omega

theorem foldl_chain {W : Type} [DecidableEq W] (register : W → Nat) (ws : List W) :
    ∀ s : CompileState W, List.Chain' (fun a b : Nat => a ≠ b) s.pulses →
      List.Chain' (fun a b : Nat => a ≠ b)
        ((ws.foldl (processWaveform register) s).pulses) := by
  induction ws with
  | nil => intro s h; exact h
  | cons v t ih =>
      intro s h
      rw [List.foldl_cons]
      exact ih _ (processWaveform_chain register s v h)

theorem foldl_countInv {W : Type} [DecidableEq W] (register : W → Nat) (ws : List W) :
    ∀ s : CompileState W, RegistryCountInv s →
      RegistryCountInv (ws.foldl (processWaveform register) s) := by
  induction ws with
  | nil => intro s H; exact H
  | cons v t ih =>
      intro s H
      rw [List.foldl_cons]
      exact ih _ (processWaveform_countInv register s v H)

theorem foldl_lookup_isSome {W : Type} [DecidableEq W] (register : W → Nat)
    (ws : List W) :
    ∀ (s : CompileState W) (w : W),
      (dictLookup w ((ws.foldl (processWaveform register) s).registered)).isSome
          = true
        ↔ (dictLookup w s.registered).isSome = true ∨ w ∈ ws := by
  induction ws with
  | nil => intro s w; simp
  | cons v t ih =>
      intro s w
      rw [List.foldl_cons, ih (processWaveform register s v) w,
          processWaveform_lookup_isSome register s v w, List.mem_cons]
      tauto

theorem emptyState_countInv (W : Type) [DecidableEq W] :
    RegistryCountInv (emptyState W) := by
  intro w
  rfl

/-! ### Claim theorems (second part) -/

/-- C4: on every all-execute-waveform block the source never raises the
branching error, and for every non-empty such block it returns a pulse group
whose repeat counts sum to the number of instructions; on the empty block,
however, it returns the bare string `""` instead of a group with an empty
`nrep` summing to zero (the failing input of the claim). -/
theorem create_pulse_group_sum_nrep {W : Type} [DecidableEq W]
    (register : W → Nat) (block : List (Instruction W)) (name : String)
    (h : block.all Instruction.isExec = true) :
    (∀ msg, (create_pulse_group register block name).1
        ≠ PulseGroupResult.error msg) ∧
    (block ≠ [] →
      ∃ g : PulseGroup,
        (create_pulse_group register block name).1 = PulseGroupResult.group g ∧
        g.nrep.sum = block.length) ∧
    create_pulse_group (fun _ : Nat => 0) ([] : List (Instruction Nat)) "empty"
      = (PulseGroupResult.sentinel "", []) := by
  refine ⟨?_, ?_, rfl⟩
  · intro msg hcontra
    by_cases hw : blockWaveforms block = []
    · rw [create_pulse_group_of_no_waveforms register block name h hw] at hcontra
      exact PulseGroupResult.noConfusion hcontra
    · rw [create_pulse_group_of_all_exec register block name h hw] at hcontra
      exact PulseGroupResult.noConfusion hcontra
  · intro hne
    have hw : blockWaveforms block ≠ [] := by
      intro h0
      have hlen := blockWaveforms_length_of_all_exec block h
      rw [h0] at hlen
      exact hne (List.length_eq_zero.mp hlen.symm)
    rw [create_pulse_group_of_all_exec register block name h hw]
    refine ⟨_, rfl, ?_⟩
    show ((blockWaveforms block).foldl (processWaveform register)
        (emptyState W)).nrep.sum = block.length
    rw [(foldl_length_sum register (blockWaveforms block) (emptyState W) rfl).2,
        blockWaveforms_length_of_all_exec block h]
    simp [emptyState]

/-- Closed witness for the C4 theorem at a concrete two-instruction block. -/
theorem create_pulse_group_sum_nrep_witness :
    ∃ g : PulseGroup,
      (create_pulse_group (fun _ : Nat => 3)
          [Instruction.exec 0, Instruction.exec 0] "w4").1
        = PulseGroupResult.group g ∧ g.nrep.sum = 2 := by
  have h := (create_pulse_group_sum_nrep (fun _ : Nat => 3)
      [Instruction.exec 0, Instruction.exec 0] "w4" (by decide)).2.1 (by decide)
  simpa using h

/-- C5: within one call on a validated block, the registration callback is
invoked exactly once for every distinct (value-equal) waveform of the block
and never for anything else; the A, B, A block with distinct A and B
compiles to `pulses=[idA, idB, idA]`, `nrep=[1, 1, 1]` with exactly two
callback invocations, A then B. -/
theorem create_pulse_group_registers_each_waveform_once {W : Type} [DecidableEq W]
    (register : W → Nat) (block : List (Instruction W)) (name : String)
    (h : block.all Instruction.isExec = true) :
    (∀ w : W,
      (create_pulse_group register block name).2.count w
        = if w ∈ blockWaveforms block then 1 else 0) ∧
    create_pulse_group (fun w => w + 10)
        [Instruction.exec 0, Instruction.exec 1, Instruction.exec 0] "g"
      = (PulseGroupResult.group
          { pulses := [10, 11, 10], nrep := [1, 1, 1], name := "g", chan := 1,
            ctrl := "notrig" },
         [0, 1]) := by
  refine ⟨?_, rfl⟩
  intro w
  by_cases hw : blockWaveforms block = []
  · rw [create_pulse_group_of_no_waveforms register block name h hw]
    simp [hw]
  · rw [create_pulse_group_of_all_exec register block name h hw]
    show ((blockWaveforms block).foldl (processWaveform register)
        (emptyState W)).invoked.count w = _
    rw [foldl_countInv register (blockWaveforms block) (emptyState W)
        (emptyState_countInv W) w]
    have hiff := foldl_lookup_isSome register (blockWaveforms block)
      (emptyState W) w
    have hempty : ¬ (dictLookup w (emptyState W).registered).isSome = true := by
      simp [emptyState, dictLookup_nil]
    by_cases hm : w ∈ blockWaveforms block
    · rw [if_pos (hiff.mpr (Or.inr hm)), if_pos hm]
    · rw [if_neg ?_, if_neg hm]
      intro hs
      rcases hiff.mp hs with hfalse | hmem
      · exact hempty hfalse
      · exact hm hmem

/-- Closed witness for the C5 theorem: the A, B, A block invokes the callback
exactly once on waveform A. -/
theorem create_pulse_group_registers_each_waveform_once_witness :
    (create_pulse_group (fun w => w + 10)
        [Instruction.exec 0, Instruction.exec 1, Instruction.exec 0] "g5").2.count 0
      = 1 := by
  have h := (create_pulse_group_registers_each_waveform_once (fun w => w + 10)
      [Instruction.exec 0, Instruction.exec 1, Instruction.exec 0] "g5"
      (by decide)).1 0
  rw [if_pos (by decide)] at h
  exact h

/-- C6: every pulse group produced by the compiler satisfies
`len(pulses) = len(nrep)` and has no two adjacent equal entries in `pulses`;
the A, A, B block compiles to `pulses=[idA, idB]`, `nrep=[2, 1]` with two
callback invocations, A then B. -/
theorem create_pulse_group_rle_invariants {W : Type} [DecidableEq W]
    (register : W → Nat) (block : List (Instruction W)) (name : String)
    (g : PulseGroup)
    (h : (create_pulse_group register block name).1 = PulseGroupResult.group g) :
    (g.pulses.length = g.nrep.length ∧
      List.Chain' (fun a b : Nat => a ≠ b) g.pulses) ∧
    create_pulse_group (fun w => w + 10)
        [Instruction.exec 0, Instruction.exec 0, Instruction.exec 1] "g"
      = (PulseGroupResult.group
          { pulses := [10, 11], nrep := [2, 1], name := "g", chan := 1,
            ctrl := "notrig" },
         [0, 1]) := by
  refine ⟨?_, rfl⟩
  by_cases hall : block.all Instruction.isExec = true
  · by_cases hw : blockWaveforms block = []
    · rw [create_pulse_group_of_no_waveforms register block name hall hw] at h
      exact PulseGroupResult.noConfusion h
    · rw [create_pulse_group_of_all_exec register block name hall hw] at h
      injection h with hg
      rw [← hg]
      exact ⟨(foldl_length_sum register (blockWaveforms block)
               (emptyState W) rfl).1,
             foldl_chain register (blockWaveforms block) (emptyState W)
               List.chain'_nil⟩
  · rw [create_pulse_group_of_not_all_exec register block name hall] at h
    exact PulseGroupResult.noConfusion h

/-- Closed witness for the C6 theorem at the concrete A, A, B block. -/
theorem create_pulse_group_rle_invariants_witness :
    (({ pulses := [10, 11], nrep := [2, 1], name := "g", chan := 1,
        ctrl := "notrig" } : PulseGroup).pulses.length
        = ({ pulses := [10, 11], nrep := [2, 1], name := "g", chan := 1,
             ctrl := "notrig" } : PulseGroup).nrep.length ∧
      List.Chain' (fun a b : Nat => a ≠ b)
        ({ pulses := [10, 11], nrep := [2, 1], name := "g", chan := 1,
           ctrl := "notrig" } : PulseGroup).pulses) ∧
    create_pulse_group (fun w => w + 10)
        [Instruction.exec 0, Instruction.exec 0, Instruction.exec 1] "g"
      = (PulseGroupResult.group
          { pulses := [10, 11], nrep := [2, 1], name := "g", chan := 1,
            ctrl := "notrig" },
         [0, 1]) :=
  create_pulse_group_rle_invariants (fun w => w + 10)
    [Instruction.exec 0, Instruction.exec 0, Instruction.exec 1] "g"
    { pulses := [10, 11], nrep := [2, 1], name := "g", chan := 1,
      ctrl := "notrig" } rfl

/-- C8: no partial success — whenever the registration callback has been
invoked at all, the call returns a full pulse group; contrapositively, a call
that raises the branching error (or returns the empty sentinel) has invoked
the callback on nothing. -/
theorem create_pulse_group_no_partial_registration {W : Type} [DecidableEq W]
    (register : W → Nat) (block : List (Instruction W)) (name : String)
    (h : (create_pulse_group register block name).2 ≠ []) :
    ∃ g : PulseGroup,
      (create_pulse_group register block name).1 = PulseGroupResult.group g := by
  by_cases hall : block.all Instruction.isExec = true
  · by_cases hw : blockWaveforms block = []
    · exact absurd
        (by rw [create_pulse_group_of_no_waveforms register block name hall hw]) h
    · rw [create_pulse_group_of_all_exec register block name hall hw]
      exact ⟨_, rfl⟩
  · exact absurd
      (by rw [create_pulse_group_of_not_all_exec register block name hall]) h

/-- Closed witness for the C8 theorem at a concrete one-instruction block. -/
theorem create_pulse_group_no_partial_registration_witness :
    ∃ g : PulseGroup,
      (create_pulse_group (fun _ : Nat => 9) [Instruction.exec 5] "w8").1
        = PulseGroupResult.group g :=
  create_pulse_group_no_partial_registration (fun _ : Nat => 9)
    [Instruction.exec 5] "w8" (by decide)

/-! ### Sampling-grid lemmas and the C7 theorems -/

theorem linspace_length (start stop : ℚ) (num : Nat) :
    (linspace start stop num).length = num := by
  unfold linspace
  split
  · next h => simp [h]
  · simp

theorem linspace_getD (start stop : ℚ) (num : Nat) (h : num ≠ 1) (i : Nat)
    (hi : i < num) :
    (linspace start stop num).getD i 0
      = start + (stop - start) * i / ((num : ℚ) - 1) := by
  unfold linspace
  rw [if_neg h, List.getD_eq_getElem?_getD, List.getElem?_map,
      List.getElem?_range hi]
  rfl

theorem linspace_head (start stop : ℚ) (num : Nat) (h2 : 2 ≤ num) :
    (linspace start stop num).head? = some start := by
  unfold linspace
  rw [if_neg (by omega), List.head?_eq_getElem?, List.getElem?_map,
      List.getElem?_range (by omega : 0 < num)]
  simp

theorem linspace_getLast (start stop : ℚ) (num : Nat) (h2 : 2 ≤ num) :
    (linspace start stop num).getLast? = some stop := by
  unfold linspace
  rw [if_neg (by omega), List.getLast?_eq_getElem?, List.length_map,
      List.length_range, List.getElem?_map,
      List.getElem?_range (by omega : num - 1 < num)]
  simp only [Option.map_some', Option.some.injEq]
  have hcast : ((num - 1 : ℕ) : ℚ) = (num : ℚ) - 1 := by
    rw [Nat.cast_sub (by omega : 1 ≤ num), Nat.cast_one]
  have hne : (num : ℚ) - 1 ≠ 0 := by
    have hge : (2 : ℚ) ≤ (num : ℚ) := by exact_mod_cast h2
    intro h0
    rw [sub_eq_zero] at h0
    rw [h0] at hge
    norm_num at hge
  rw [hcast, mul_div_assoc, div_self hne, mul_one]
  ring

/-- C7 counterexample: with duration 1, time scaling 1/1000 and sample rate
10 the sample count is `floor(1/100) + 1 = 1` and the sample grid is the
single point 0, so the right endpoint of the closed interval `[0, 1]` is not
sampled — refuting the claim that both endpoints are always included. -/
theorem create_waveform_struct_single_point_counterexample :
    sampleCount 10 (1/1000) { duration := 1, sample := fun t => t } = 1 ∧
    sampleTimes 10 (1/1000) { duration := 1, sample := fun t => t } = [0] ∧
    (1 : ℚ) ∉ sampleTimes 10 (1/1000) { duration := 1, sample := fun t => t } ∧
    (create_waveform_struct 10 (1/1000) { duration := 1, sample := fun t => t }
        "w").data.wf = [0] := by
  have hc : sampleCount 10 (1/1000) { duration := 1, sample := fun t => t } = 1 := by
    show (Int.floor ((1 : ℚ) * (1/1000) * 10) + 1).toNat = 1
    norm_num
  have ht : sampleTimes 10 (1/1000) { duration := 1, sample := fun t => t } = [0] := by
    unfold sampleTimes
    rw [hc]
    rfl
  refine ⟨hc, ht, ?_, ?_⟩
  · rw [ht]
    norm_num
  · show (sampleTimes 10 (1/1000) { duration := 1, sample := fun t => t }).map
        (fun t => t) = [0]
    rw [ht]
    rfl

/-- C7 (amended): the struct samples the waveform at exactly
`floor(duration * time_scaling * sample_rate) + 1` points; when that count is
at least 2 the points are evenly spaced over the closed interval
`[0, duration]`, both endpoints included, and when it is 1 the single sample
point is 0. -/
theorem create_waveform_struct_sampling (sample_rate time_scaling : ℚ)
    (w : Waveform) (name : String)
    (hprod : 0 ≤ w.duration * time_scaling * sample_rate) :
    sampledEvenly sample_rate time_scaling w name := by
  unfold sampledEvenly
  refine ⟨rfl, linspace_length 0 w.duration _, ?_, ?_, ?_, ?_⟩
  · show ((Int.floor (w.duration * time_scaling * sample_rate) + 1).toNat : ℤ) = _
    have h0 : 0 ≤ Int.floor (w.duration * time_scaling * sample_rate) :=
      Int.floor_nonneg.mpr hprod
    rw [Int.toNat_of_nonneg (by omega)]
  · intro h2 i hi
    show (linspace 0 w.duration _).getD i 0 = _
    rw [linspace_getD 0 w.duration _ (by omega) i hi]
    ring
  · intro h2
    exact ⟨linspace_head 0 w.duration _ h2, linspace_getLast 0 w.duration _ h2⟩
  · intro h1
    show linspace 0 w.duration (sampleCount sample_rate time_scaling w) = [0]
    rw [h1]
    rfl

/-- Closed witness for the amended C7 theorem with duration 2, scaling 1 and
rate 3, giving 7 evenly spaced sample points over `[0, 2]`. -/
theorem create_waveform_struct_sampling_witness :
    (0 : ℚ) ≤ ({ duration := 2, sample := fun t => t } : Waveform).duration * 1 * 3 ∧
    sampledEvenly 3 1 { duration := 2, sample := fun t => t } "w7" := by
  refine ⟨by norm_num, ?_⟩
  exact create_waveform_struct_sampling 3 1 { duration := 2, sample := fun t => t }
    "w7" (by norm_num)

/-- C10: stringifying a `ParameterNotInPulseTemplateException` never
produces a message: the replacement index 1 is out of range for the single
positional argument, so the conversion raises `IndexError` for every
parameter name. -/
theorem parameterNotInPulseTemplateException_str_raises (name : String) :
    parameterNotInPulseTemplateExceptionStr name
        = Except.error "IndexError: Replacement index out of range" ∧
    ∀ s : String, parameterNotInPulseTemplateExceptionStr name ≠ Except.ok s := by
  refine ⟨rfl, ?_⟩
  intro s h
  exact Except.noConfusion h

end PulseControl
